import Mathlib

/-!
Shallow embedding of the antenna-pattern-generator library (src/src/lib.rs).

Rust `f64` values are modelled as real numbers and `Complex<f64>` as `ℂ`.
The one float behaviour that matters to the claims — `0.0 / 0.0 = NaN` in
`PatchElement::get_gain` — is modelled by returning `Option ℂ`, with `none`
standing for a NaN result.
-/

noncomputable section

namespace AntennaPattern

open Complex

/-- Speed of Light (m/s), `SPEED_OF_LIGHT` in the source. -/
def SPEED_OF_LIGHT : ℝ := 299792458

/-- A position in 3D cartesian space (`Point` in the source); all values are
distance from origin in meters. -/
structure Point where
  x : ℝ
  y : ℝ
  z : ℝ

/-- Componentwise addition of points, used to state the phase-translation
homomorphism property. -/
def Point.add (p q : Point) : Point :=
  ⟨p.x + q.x, p.y + q.y, p.z + q.z⟩

/-- Function `calc_phase` from the source: wavenumber `k = 2π·frequency/c`, per-axis
imaginary phase terms, result is the product of their complex exponentials. -/
def calc_phase (pnt : Point) (frequency theta phi : ℝ) : ℂ :=
  let k : ℝ := 2 * Real.pi * frequency / SPEED_OF_LIGHT
  let dx : ℂ := Complex.I * k * pnt.x * Real.cos phi * Real.sin theta
  let dy : ℂ := Complex.I * k * pnt.y * Real.sin phi * Real.sin theta
  let dz : ℂ := Complex.I * k * pnt.z * Real.cos theta
  Complex.exp dx * Complex.exp dy * Complex.exp dz

/-- An omni-directional element (`OmniElement` in the source): a position and
a direction-independent scalar gain. -/
structure OmniElement where
  position : Point
  gain : ℝ

/-- Method `OmniElement::get_gain` from the source:
`calc_phase(&self.position, frequency, theta, phi) * self.gain`. -/
def OmniElement.get_gain (e : OmniElement) (frequency theta phi : ℝ) : ℂ :=
  calc_phase e.position frequency theta phi * e.gain

/-- Struct `PatchElement` from the source: a position, a length (side of patch
parallel with feed, meters) and a width (side normal to feed, meters). -/
structure PatchElement where
  position : Point
  length : ℝ
  width : ℝ

/-- Method `PatchElement::get_gain` from the source. The Rust code computes
`inside0.sin() / inside0` with no guard; when `inside0 == 0.0` this is
`0.0 / 0.0 = NaN` in `f64`, which propagates to the result. A NaN result is
modelled as `none`; away from `inside0 = 0` the arithmetic is exact real
arithmetic and the result is `some` of the computed complex value. -/
def PatchElement.get_gain (e : PatchElement) (frequency theta phi : ℝ) :
    Option ℂ :=
  let k := 2 * Real.pi * frequency / SPEED_OF_LIGHT
  let sin_theta := Real.sin theta
  let cos_theta := Real.cos theta
  let sin_phi := Real.sin phi
  let cos_phi := Real.cos phi
  let inside0 := k * e.width * sin_theta * sin_phi / 2
  if inside0 = 0 then none
  else
    let value0 := Real.sin inside0 / inside0
    let value1 := Real.cos (k * e.length * sin_theta * cos_phi)
    let value2 := value0 * value1
    let e_field_theta := value2 * cos_phi
    let e_field_phi := -value2 * cos_theta * sin_phi
    some ⟨Real.sqrt (e_field_theta ^ 2 + e_field_phi ^ 2), 0⟩

/-- Struct `PositionElement` from the source: associates a placement `Point` and a
complex excitation `weight` with an element model. The model
(`Box<dyn ElementIface>` in the source) is embedded as its gain function
`(frequency, theta, phi) ↦ gain`. The cached `position_factor`
field is the memoized `calc_phase` value and is not separate state here. -/
structure PositionElement where
  position : Point
  weight : ℂ
  element : ℝ → ℝ → ℝ → ℂ

/-- Modelled from the spec: the body of `PositionElement::get_gain` is absent
from the source (the function is declared with an empty body). Per the array formula of the spec, the contribution of one array element is
`element.model.get_gain(frequency, θ, φ) × calc_phase(element.position,
frequency, θ, φ) × element.weight`. -/
def PositionElement.get_gain (e : PositionElement)
    (frequency theta phi : ℝ) : ℂ :=
  e.element frequency theta phi * calc_phase e.position frequency theta phi *
    e.weight

/-- Struct `ArrayAntenna` from the source: an ordered collection of position
elements. -/
structure ArrayAntenna where
  elements : List PositionElement

/-- Method `ArrayAntenna::get_gain` from the source: map `get_gain` over the
elements and sum the resulting gains. The source impl names its angle
parameters `phi, theta` but passes them positionally, so the second angle argument supplied by the
caller reaches the `theta` slot of each element. -/
def ArrayAntenna.get_gain (a : ArrayAntenna)
    (frequency theta phi : ℝ) : ℂ :=
  let gains : List ℂ :=
    a.elements.map (fun n => n.get_gain frequency theta phi)
  gains.sum

/-- Method `ArrayAntenna::get_channel_gain` from the source:
`self.elements[channel].get_gain(...)`. Rust `Vec` indexing panics when
`channel` is out of range; the panic is modelled as `none`. -/
def ArrayAntenna.get_channel_gain (a : ArrayAntenna) (channel : ℕ)
    (frequency theta phi : ℝ) : Option ℂ :=
  (a.elements.get? channel).map (fun e => e.get_gain frequency theta phi)

/-- A phase cache, as used by the `#[memoize]` annotation on `calc_phase`:
a partial map from argument keys to cached results. -/
def PhaseCache : Type :=
  Point × ℝ × ℝ × ℝ → Option ℂ

/-- Modelled from the spec: the expansion of the `#[memoize]` annotation is
not in the source. A cache is well formed when every stored entry is exactly
the value `calc_phase` computes for its key. -/
def PhaseCache.WellFormed (cache : PhaseCache) : Prop :=
  ∀ pnt frequency theta phi v,
    cache (pnt, frequency, theta, phi) = some v →
      v = calc_phase pnt frequency theta phi

/-- Modelled from the spec: the memoized entry point of `calc_phase` (the
`#[memoize(Capacity: 1000)]` wrapper is not in the source). On a cache hit
the stored value is returned unchanged; on a miss the value is computed
fresh. Eviction only removes entries, so it is irrelevant to the returned
value and not modelled. -/
def memo_calc_phase (cache : PhaseCache) (pnt : Point)
    (frequency theta phi : ℝ) : ℂ :=
  match cache (pnt, frequency, theta, phi) with
  | some v => v
  | none => calc_phase pnt frequency theta phi

set_option linter.unusedVariables false in
/-- The θ/φ sampling loop of `write_to_file` from the source, with the file
formatting stripped: the grid of recorded magnitudes, one inner list per
φ-row. The source computes `num_phi_samples = (2π/Δφ) as u64` but its φ loop
iterates `0..num_theta_samples`; this model reproduces that loop bound. The
`as u64` cast of a positive float is `Nat.floor`. -/
def sampleGrid (gain : ℝ → ℝ → ℝ → ℂ)
    (frequency theta_spacing phi_spacing : ℝ) : List (List ℝ) :=
  let num_theta_samples : ℕ := Nat.floor (Real.pi / theta_spacing)
  let num_phi_samples : ℕ := Nat.floor (2 * Real.pi / phi_spacing)
  (List.range num_theta_samples).map (fun phi_idx : ℕ =>
    (List.range num_theta_samples).map (fun theta_idx : ℕ =>
      Complex.abs
        (gain frequency ((theta_idx : ℝ) * theta_spacing)
          ((phi_idx : ℝ) * phi_spacing))))

/-- The two-element half-wavelength scenario of the spec: two omni elements
of gain 1 whose models sit at the origin, placed at `(0,0,0)` and
`(λ/2, 0, 0)` with `λ = c / 1e9`, both with weight `1 + 0j`. -/
def halfWaveArray : ArrayAntenna :=
  ⟨[⟨⟨0, 0, 0⟩, 1, OmniElement.get_gain ⟨⟨0, 0, 0⟩, 1⟩⟩,
    ⟨⟨SPEED_OF_LIGHT / 10 ^ 9 / 2, 0, 0⟩, 1,
      OmniElement.get_gain ⟨⟨0, 0, 0⟩, 1⟩⟩]⟩

/-! ### Helper lemmas -/

/-- Product of three exponentials is the exponential of the sum. -/
lemma exp3 (a b c : ℂ) :
    Complex.exp a * Complex.exp b * Complex.exp c = Complex.exp (a + b + c) := by
  rw [← Complex.exp_add, ← Complex.exp_add]

/-- The exponential of `I` times a real product has modulus one. -/
lemma abs_exp_I_mul (a b c d : ℝ) :
    Complex.abs (Complex.exp (Complex.I * a * b * c * d)) = 1 := by
  rw [show (Complex.I * a * b * c * d : ℂ) = ((a * b * c * d : ℝ) : ℂ) * Complex.I
    by push_cast; ring]
  exact Complex.abs_exp_ofReal_mul_I _

/-- Three-factor variant of `abs_exp_I_mul`, matching the z-axis term. -/
lemma abs_exp_I_mul3 (a b c : ℝ) :
    Complex.abs (Complex.exp (Complex.I * a * b * c)) = 1 := by
  rw [show (Complex.I * a * b * c : ℂ) = ((a * b * c : ℝ) : ℂ) * Complex.I
    by push_cast; ring]
  exact Complex.abs_exp_ofReal_mul_I _

/-- At the origin the phase factor is exactly one. -/
lemma calc_phase_origin (frequency theta phi : ℝ) :
    calc_phase ⟨0, 0, 0⟩ frequency theta phi = 1 := by
  simp [calc_phase]

/-- For a point on the x axis, at θ = π/2 and φ = 0 the phase factor reduces
to a single exponential of `k·x`. -/
lemma calc_phase_x_axis (x f : ℝ) :
    calc_phase ⟨x, 0, 0⟩ f (Real.pi / 2) 0 =
      Complex.exp (((2 * Real.pi * f / SPEED_OF_LIGHT * x : ℝ) : ℂ) *
        Complex.I) := by
  simp only [calc_phase, Real.cos_zero, Real.sin_pi_div_two,
    Real.cos_pi_div_two, Real.sin_zero, Complex.ofReal_zero,
    Complex.ofReal_one, mul_one, mul_zero, zero_mul, Complex.exp_zero]
  congr 1
  push_cast
  ring

/-- At half-wavelength x-offset, frequency 1 GHz, θ = π/2, φ = 0, the phase
factor is `exp(iπ) = -1`. -/
lemma calc_phase_half_wave :
    calc_phase ⟨SPEED_OF_LIGHT / 10 ^ 9 / 2, 0, 0⟩ (10 ^ 9)
      (Real.pi / 2) 0 = -1 := by
  have hc : SPEED_OF_LIGHT ≠ 0 := by norm_num [SPEED_OF_LIGHT]
  have hkd : 2 * Real.pi * 10 ^ 9 / SPEED_OF_LIGHT *
      (SPEED_OF_LIGHT / 10 ^ 9 / 2) = Real.pi := by
    field_simp
    ring
  rw [calc_phase_x_axis, hkd, Complex.exp_pi_mul_I]

/-! ### Claim theorems -/

/-- C3: for every point, frequency, θ and φ, `calc_phase` has magnitude
exactly one (hence within 1e-9 of one), and at the origin it is exactly
`1 + 0j`. -/
theorem calc_phase_unit_magnitude (p : Point) (frequency theta phi : ℝ) :
    Complex.abs (calc_phase p frequency theta phi) = 1 ∧
    calc_phase ⟨0, 0, 0⟩ frequency theta phi = 1 := by
  refine ⟨?_, calc_phase_origin frequency theta phi⟩
  simp only [calc_phase, map_mul]
  rw [abs_exp_I_mul, abs_exp_I_mul, abs_exp_I_mul3]
  norm_num

/-- C10: in exact real arithmetic, `calc_phase` maps componentwise point
addition to complex multiplication, because each per-axis exponential
argument is linear in the coordinate. -/
theorem calc_phase_add_hom (p q : Point) (frequency theta phi : ℝ) :
    calc_phase (Point.add p q) frequency theta phi =
      calc_phase p frequency theta phi * calc_phase q frequency theta phi := by
  simp only [calc_phase, Point.add]
  rw [exp3, exp3, exp3, ← Complex.exp_add]
  congr 1
  push_cast
  ring

/-- C2: `ArrayAntenna.get_gain` is the sum, over the elements of the array, of
`model gain × calc_phase(position) × weight`, each evaluated at the
frequency, θ and φ supplied by the caller; on the empty array the sum is `0 + 0j`. -/
theorem array_get_gain_sum (a : ArrayAntenna) (frequency theta phi : ℝ) :
    a.get_gain frequency theta phi =
      (a.elements.map (fun e =>
        e.element frequency theta phi *
          calc_phase e.position frequency theta phi * e.weight)).sum ∧
    (ArrayAntenna.mk []).get_gain frequency theta phi = 0 :=
  ⟨rfl, rfl⟩

/-- C4 (amended): `OmniElement.get_gain` returns
`calc_phase(position, frequency, θ, φ) × gain`, with no weight factor applied
by the model; `gain` is a direction-independent scalar. -/
theorem omni_get_gain_eq (e : OmniElement) (frequency theta phi : ℝ) :
    e.get_gain frequency theta phi =
      calc_phase e.position frequency theta phi * e.gain :=
  rfl

/-- C4 (counterexample): for the omni element of gain 2 at the origin,
carrying a weight of 2, the gain computed by the code (2 at θ = φ = 0) is not
`calc_phase × gain × weight = 4`: no weight factor is applied in
`OmniElement::get_gain`. -/
theorem omni_no_weight_counterexample :
    OmniElement.get_gain ⟨⟨0, 0, 0⟩, 2⟩ (10 ^ 9) 0 0 ≠
      calc_phase ⟨0, 0, 0⟩ (10 ^ 9) 0 0 * 2 * 2 := by
  rw [OmniElement.get_gain, calc_phase_origin]
  norm_num

/-- C1: at boresight (θ = 0) the patch sinc argument `inside0` is exactly
zero and the code computes `sin(0.0) / 0.0 = NaN` with no analytic-limit
guard, so the gain is NaN (modelled `none`) rather than the claimed
`1 + 0j`. -/
theorem patch_gain_nan_at_boresight :
    PatchElement.get_gain ⟨⟨0, 0, 0⟩, 1, 1⟩ (10 ^ 9) 0 0 = none := by
  simp [PatchElement.get_gain]

/-- C5: `get_channel_gain` yields the out-of-range failure (`none`, the
model of the Rust indexing panic) exactly when `channel ≥ element count`,
and otherwise the single fully-weighted, fully-translated contribution of
the indexed element, without summation. -/
theorem get_channel_gain_spec (a : ArrayAntenna) (channel : ℕ)
    (frequency theta phi : ℝ) :
    (a.elements.length ≤ channel →
      a.get_channel_gain channel frequency theta phi = none) ∧
    (∀ h : channel < a.elements.length,
      a.get_channel_gain channel frequency theta phi =
        some ((a.elements.get ⟨channel, h⟩).get_gain frequency theta phi)) := by
  constructor
  · intro h
    simp only [ArrayAntenna.get_channel_gain]
    rw [List.get?_eq_none.mpr h]
    rfl
  · intro h
    simp only [ArrayAntenna.get_channel_gain]
    rw [List.get?_eq_get h]
    rfl

/-- C5 witness: on a singleton array, channel 1 is out of range and fails,
channel 0 returns the contribution of the element. -/
theorem get_channel_gain_spec_witness :
    (ArrayAntenna.mk [⟨⟨0, 0, 0⟩, 1, fun _ _ _ => 1⟩]).get_channel_gain
        1 (10 ^ 9) 0 0 = none ∧
    (ArrayAntenna.mk [⟨⟨0, 0, 0⟩, 1, fun _ _ _ => 1⟩]).get_channel_gain
        0 (10 ^ 9) 0 0 =
      some ((PositionElement.mk ⟨0, 0, 0⟩ 1 (fun _ _ _ => 1)).get_gain
        (10 ^ 9) 0 0) :=
  ⟨(get_channel_gain_spec ⟨[⟨⟨0, 0, 0⟩, 1, fun _ _ _ => 1⟩]⟩ 1
      (10 ^ 9) 0 0).1 (by simp),
   (get_channel_gain_spec ⟨[⟨⟨0, 0, 0⟩, 1, fun _ _ _ => 1⟩]⟩ 0
      (10 ^ 9) 0 0).2 (by simp)⟩

/-- C8: on any well-formed cache (every stored value is what `calc_phase`
computes for its key), the memoized entry point returns a value identical to
an uncached fresh recomputation: caching degrades nothing. -/
theorem memo_calc_phase_bit_identical (cache : PhaseCache)
    (hwf : cache.WellFormed) (pnt : Point) (frequency theta phi : ℝ) :
    memo_calc_phase cache pnt frequency theta phi =
      calc_phase pnt frequency theta phi := by
  unfold memo_calc_phase
  cases hc : cache (pnt, frequency, theta, phi) with
  | none => rfl
  | some v => exact hwf pnt frequency theta phi v hc

/-- C8 witness: the empty cache is well formed, and the memoized call on it
agrees with the fresh computation at a concrete key. -/
theorem memo_calc_phase_bit_identical_witness :
    memo_calc_phase (fun _ => none) ⟨1, 2, 3⟩ (10 ^ 9) 1 1 =
      calc_phase ⟨1, 2, 3⟩ (10 ^ 9) 1 1 :=
  memo_calc_phase_bit_identical (fun _ => none)
    (fun _ _ _ _ _ h => nomatch h) ⟨1, 2, 3⟩ (10 ^ 9) 1 1

/-- C7 (counterexample): at φ = 0 (and θ = π/2) the sinc argument is zero,
the code computes `0/0 = NaN`, and the patch gain is not a non-negative real
carried in a complex number — there is no returned value at all. -/
theorem patch_not_always_real_counterexample :
    ¬ ∃ z : ℂ,
      PatchElement.get_gain ⟨⟨0, 0, 0⟩, 1, 1⟩ (10 ^ 9) (Real.pi / 2) 0 =
        some z ∧ z.im = 0 ∧ 0 ≤ z.re := by
  have hnone :
      PatchElement.get_gain ⟨⟨0, 0, 0⟩, 1, 1⟩ (10 ^ 9) (Real.pi / 2) 0 =
        none := by
    simp [PatchElement.get_gain]
  rintro ⟨z, hz, -, -⟩
  rw [hnone] at hz
  exact Option.noConfusion hz

/-- C7 (amended): the patch gain applies neither weight nor phase
translation and never reads the position field: two patches with equal
length and width return identical gains at every input; and whenever a value
is returned (the sinc argument is nonzero, so no NaN arises) it is a
non-negative real with zero imaginary part. -/
theorem patch_position_independent_real (e₁ e₂ : PatchElement)
    (frequency theta phi : ℝ)
    (hl : e₁.length = e₂.length) (hw : e₁.width = e₂.width) :
    e₁.get_gain frequency theta phi = e₂.get_gain frequency theta phi ∧
    ∀ z : ℂ, e₁.get_gain frequency theta phi = some z →
      z.im = 0 ∧ 0 ≤ z.re := by
  constructor
  · simp only [PatchElement.get_gain, hl, hw]
  · intro z hz
    simp only [PatchElement.get_gain] at hz
    split at hz
    · exact Option.noConfusion hz
    · obtain rfl := Option.some_injective _ hz.symm
      exact ⟨rfl, Real.sqrt_nonneg _⟩

/-- C7 witness: two patches of equal geometry at different positions agree
at a concrete input, and the returned value there is a non-negative real. -/
theorem patch_position_independent_real_witness :
    PatchElement.get_gain ⟨⟨0, 0, 0⟩, 1, 1⟩ (10 ^ 9) (Real.pi / 2)
        (Real.pi / 2) =
      PatchElement.get_gain ⟨⟨7, 8, 9⟩, 1, 1⟩ (10 ^ 9) (Real.pi / 2)
        (Real.pi / 2) ∧
    ∀ z : ℂ,
      PatchElement.get_gain ⟨⟨0, 0, 0⟩, 1, 1⟩ (10 ^ 9) (Real.pi / 2)
          (Real.pi / 2) = some z →
        z.im = 0 ∧ 0 ≤ z.re :=
  patch_position_independent_real ⟨⟨0, 0, 0⟩, 1, 1⟩ ⟨⟨7, 8, 9⟩, 1, 1⟩
    (10 ^ 9) (Real.pi / 2) (Real.pi / 2) rfl rfl

/-- C6: with Δθ = Δφ = π/2 the sampler emits 2 φ-rows — the θ-sample count
`⌊π/Δθ⌋`, because the φ loop of the source iterates over `num_theta_samples` —
while the claimed row count `⌊2π/Δφ⌋` is 4. -/
theorem sample_grid_row_count_bug :
    (sampleGrid (fun _ _ _ => 0) (10 ^ 9) (Real.pi / 2)
        (Real.pi / 2)).length = 2 ∧
    Nat.floor (2 * Real.pi / (Real.pi / 2)) = 4 := by
  have hpi := Real.pi_ne_zero
  have h2 : Real.pi / (Real.pi / 2) = 2 := by
    field_simp
  have h4 : 2 * Real.pi / (Real.pi / 2) = 4 := by
    field_simp
    ring
  constructor
  · simp only [sampleGrid, List.length_map, List.length_range]
    rw [h2]
    norm_num
  · rw [h4]
    norm_num

/-- C9: for the two-element half-wavelength array at 1 GHz, θ = π/2, φ = 0,
the two unit-magnitude contributions differ in phase by π and the array gain
magnitude is 0 (hence within 1e-6 of 0). -/
theorem half_wavelength_null :
    Complex.abs (halfWaveArray.get_gain (10 ^ 9) (Real.pi / 2) 0) ≤
      1 / 10 ^ 6 := by
  have h0 : halfWaveArray.get_gain (10 ^ 9) (Real.pi / 2) 0 = 0 := by
    simp only [halfWaveArray, ArrayAntenna.get_gain, List.map_cons,
      List.map_nil, List.sum_cons, List.sum_nil, PositionElement.get_gain,
      OmniElement.get_gain, calc_phase_origin, calc_phase_half_wave]
    norm_num
  rw [h0]
  norm_num

end AntennaPattern

end
